import Mathlib

/-!
Shallow embedding of the golang-ico codec (reader.go, writer.go).
Byte buffers are `List Nat` with each element a byte value; little-endian
reads and writes are explicit. The external PNG and BMP codecs
(image/png, github.com/jsummers/gobmp, image/draw) are capability
parameters, as the specification directs in its design notes.
-/

namespace Ico

/-- Error kinds of the codec, one constructor per distinct error value the
Go source can return (fmt.Errorf messages and io.ErrUnexpectedEOF). -/
inductive Err where
  | tooLarge
  | corruptHeader (z t : Nat)
  | noImages
  | corruptEntry (size : Nat)
  | unexpectedEnd
  | corruptDibHeader (size : Nat)
  | corruptBmpHeight (h : Nat)
  | corruptBmpDims
  | corruptBmpMaskSize
  | corruptBmpImageSize
  | corruptBmpOffset
  | corruptMaskData
  | corruptBmpData
  | corruptBmpAlpha
  | pngError
  | bmpError
  | imageTooLarge
  deriving DecidableEq

/-- binary.LittleEndian.Uint16 read at index i (reads past the end give 0;
call sites have already checked bounds, as in the Go source). -/
def u16le (l : List Nat) (i : Nat) : Nat :=
  l.getD i 0 + 256 * l.getD (i + 1) 0

/-- binary.LittleEndian.Uint32 read at index i. -/
def u32le (l : List Nat) (i : Nat) : Nat :=
  l.getD i 0 + 256 * l.getD (i + 1) 0 + 65536 * l.getD (i + 2) 0 +
    16777216 * l.getD (i + 3) 0

/-- binary.LittleEndian.PutUint16 at index i: stores the two low bytes. -/
def putU16le (l : List Nat) (i v : Nat) : List Nat :=
  (l.set i (v % 256)).set (i + 1) (v / 256 % 256)

/-- binary.LittleEndian.PutUint32 at index i: stores the four low bytes
(equivalently, the bytes of v mod 2^32). -/
def putU32le (l : List Nat) (i v : Nat) : List Nat :=
  (((l.set i (v % 256)).set (i + 1) (v / 256 % 256)).set
    (i + 2) (v / 65536 % 256)).set (i + 3) (v / 16777216 % 256)

/-- The four bytes binary.Write emits for a uint32 field. -/
def u32bytes (v : Nat) : List Nat :=
  [v % 256, v / 256 % 256, v / 65536 % 256, v / 16777216 % 256]

/-- const maxICOSize = int64(64 << 20). -/
def maxICOSize : Nat := 67108864

/-- var pngHeader = []byte of the PNG magic. -/
def pngHeader : List Nat := [137, 80, 78, 71, 13, 10, 26, 10]

/-- type head struct: 6 bytes, all fields uint16. -/
structure Head where
  zero : Nat
  ty : Nat
  number : Nat
  deriving DecidableEq

/-- type direntry struct: 16 bytes (one padding byte after palette). -/
structure Direntry where
  width : Nat
  height : Nat
  palette : Nat
  plane : Nat
  bits : Nat
  size : Nat
  offset : Nat
  deriving DecidableEq

/-- readAllICO: io.ReadAll of io.LimitReader(r, maxICOSize+1) followed by the
size check. The source is modelled as the byte sequence an error-free reader
yields; the limited reader takes at most maxICOSize+1 bytes of it. -/
def readAllICO (src : List Nat) : Except Err (List Nat) :=
  let b := src.take (maxICOSize + 1)
  if b.length > maxICOSize then .error .tooLarge else .ok b

/-- decodeHeader: binary.Read of the 6-byte head (short input gives the
binary.Read end-of-input error), then the reserved/type check, then the
zero-entry check. -/
def decodeHeader (file : List Nat) : Except Err Head :=
  if file.length < 6 then .error .unexpectedEnd
  else
    let z := u16le file 0
    let t := u16le file 2
    let number := u16le file 4
    if z ≠ 0 ∨ t ≠ 1 then .error (.corruptHeader z t)
    else if number = 0 then .error .noImages
    else .ok ⟨z, t, number⟩

/-- One 16-byte directory entry read at offset off (binary.Read field order:
width, height, palette, one padding byte, plane, bits, size, offset). -/
def parseEntry (file : List Nat) (off : Nat) : Direntry :=
  { width := file.getD off 0
    height := file.getD (off + 1) 0
    palette := file.getD (off + 2) 0
    plane := u16le file (off + 4)
    bits := u16le file (off + 6)
    size := u32le file (off + 8)
    offset := u32le file (off + 12) }

/-- decodeEntries: reads head.Number sequential 16-byte entries starting at
byte 6; a short buffer fails with the binary.Read end-of-input error. -/
def decodeEntries (file : List Nat) (n : Nat) : Except Err (List Direntry) :=
  if file.length < 6 + 16 * n then .error .unexpectedEnd
  else .ok ((List.range n).map fun i => parseEntry file (6 + 16 * i))

/-- entryBytes: validates the slice [offset, offset+size) in int64 arithmetic
exactly as the source does (start and size come from uint32 fields, so the
int64 conversions are exact) and returns file[start:end]. -/
def entryBytes (file : List Nat) (e : Direntry) : Except Err (List Nat) :=
  let start : Int := (e.offset : Int)
  let size : Int := (e.size : Int)
  if size ≤ 0 then .error (.corruptEntry e.size)
  else
    let stop := start + size
    if start < 0 ∨ stop < start ∨ stop > (file.length : Int) then
      .error .unexpectedEnd
    else .ok ((file.drop e.offset).take e.size)

/-- forgeBMPHead, dimension parsing: the switch on dibSize. The 12-byte
BITMAPCOREHEADER form holds 16-bit width and height and the bit depth at
bytes 4..11; all later forms hold 32-bit width and height, the bit depth at
bytes 14..15, and the explicit color count at bytes 32..35 when present.
Returns (w, h, bits, numColors). -/
def parseDims (data : List Nat) (dibSize : Nat) : Except Err (Nat × Nat × Nat × Nat) :=
  if dibSize = 12 then
    if data.length < 12 then .error .unexpectedEnd
    else .ok (u16le data 4, u16le data 6, u16le data 10, 0)
  else
    if data.length < 16 then .error .unexpectedEnd
    else
      .ok (u32le data 4, u32le data 8, u16le data 14,
        if data.length ≥ 36 then u32le data 32 else 0)

/-- forgeBMPHead, height heuristic: if h is even and (h/2 equals the
directory height, or h/2 equals w, or h exceeds w), halve h and rewrite the
height field in place: the 16-bit field at byte 6 of the DIB for the 12-byte
form (rejecting a halved height above 0xFFFF), the 32-bit field at byte 8
otherwise. Returns the height to use and the updated DIB bytes. -/
def halveHeight (data : List Nat) (dibSize w h entryH : Nat) : Except Err (Nat × List Nat) :=
  if h % 2 = 0 ∧ (h / 2 = entryH ∨ h / 2 = w ∨ h > w) then
    if dibSize = 12 then
      if h / 2 > 65535 then .error (.corruptBmpHeight (h / 2))
      else .ok (h / 2, putU16le data 6 (h / 2))
    else .ok (h / 2, putU32le data 8 (h / 2))
  else .ok (h, data)

/-- Result of forgeBMPHead: the trailing AND-mask slice (none for 32-bit
entries), the forged file size, and the mutated buffer. -/
structure Forge where
  mask : Option (List Nat)
  bmpSize : Nat
  buf : List Nat
  deriving DecidableEq

/-- forgeBMPHead, tail: writes the BM magic and the file size into the
14-byte prefix, computes the color-table entry count (2^bits for depths
1/2/4/8, kept from the header field when that is nonzero and not above
2^bits; 0 otherwise), the table byte size (3-byte entries for dibSize 12 or
64, 4-byte entries otherwise), and the pixel-data offset
14 + dibSize + tableBytes plus the extra length field at data[dibSize-8..]
when dibSize exceeds 40, all in uint32 arithmetic; rejects an offset at or
past the forged size, else writes the offset at bytes 10..13. -/
def finishForge (buf14 data : List Nat) (dibSize bits numColors imageSize : Nat)
    (mask : Option (List Nat)) : Except Err Forge :=
  let bmpSize := 14 + imageSize
  let cur := buf14 ++ data
  let cur1 := putU32le ((cur.set 0 66).set 1 77) 2 bmpSize
  let numColors1 :=
    if bits = 1 ∨ bits = 2 ∨ bits = 4 ∨ bits = 8 then
      if numColors = 0 ∨ numColors > 2 ^ bits then 2 ^ bits else numColors
    else 0
  let numColorsSize :=
    if dibSize = 12 ∨ dibSize = 64 then numColors1 * 3 else numColors1 * 4
  let offset0 := (14 + dibSize + numColorsSize) % 4294967296
  let offset :=
    if 40 < dibSize ∧ 8 ≤ dibSize ∧ dibSize - 4 ≤ data.length then
      (offset0 + u32le data (dibSize - 8)) % 4294967296
    else offset0
  if offset ≥ bmpSize % 4294967296 then .error .corruptBmpOffset
  else .ok ⟨mask, bmpSize, putU32le cur1 10 offset⟩

/-- forgeBMPHead past the DIB-size validation: parse dimensions, apply the
height heuristic, split off the AND mask for non-32-bit depths (stride
(w+31)/32*4 rows of h, taken from the tail of the payload, with the distinct
geometry errors of the source), then finish the 14-byte header. -/
def forgeRest (buf data : List Nat) (e : Direntry) (dibSize : Nat) : Except Err Forge :=
  match parseDims data dibSize with
  | .error err => .error err
  | .ok (w, h, bits, numColors) =>
    let entryH := if e.height = 0 then 256 else e.height
    match halveHeight data dibSize w h entryH with
    | .error err => .error err
    | .ok (h1, data1) =>
      if bits ≠ 32 then
        if w = 0 ∨ h1 = 0 then .error .corruptBmpDims
        else
          let rowSize := (w + 31) / 32 * 4
          let maskSize := rowSize * h1
          if maskSize = 0 ∨ maskSize > data1.length then .error .corruptBmpMaskSize
          else
            let imageSize := data1.length - maskSize
            if imageSize = 0 then .error .corruptBmpImageSize
            else
              finishForge (buf.take 14) data1 dibSize bits numColors imageSize
                (some (data1.drop imageSize))
      else finishForge (buf.take 14) data1 dibSize bits numColors data1.length none

/-- forgeBMPHead: the guard on the buffer length, the DIB-size field read and
its two validations, then the rest of the forging. -/
def forgeBMPHead (buf : List Nat) (e : Direntry) : Except Err Forge :=
  if buf.length < 14 + 4 then .error .unexpectedEnd
  else
    let data := buf.drop 14
    if data.length < 4 then .error .unexpectedEnd
    else
      let dibSize := u32le data 0
      if dibSize < 12 then .error (.corruptDibHeader dibSize)
      else if data.length < dibSize then .error .unexpectedEnd
      else forgeRest buf data e dibSize

/-- image.Image as the decoder uses it: integer bounds and an RGBA lookup. -/
structure GoImage where
  x0 : Int
  y0 : Int
  x1 : Int
  y1 : Int
  pixAt : Int → Int → Nat × Nat × Nat × Nat

/-- Bounds().Dx(). -/
def GoImage.dx (g : GoImage) : Int := g.x1 - g.x0

/-- Bounds().Dy(). -/
def GoImage.dy (g : GoImage) : Int := g.y1 - g.y0

/-- image.Config: the width and height DecodeConfig reports. -/
structure Cfg where
  width : Nat
  height : Nat
  deriving DecidableEq

/-- The external codecs the decoder delegates to (image/png, gobmp,
image/draw), treated as capability interfaces per the specification.
drawMask is the draw.DrawMask composite of the color image with an alpha
grid. -/
structure Codecs where
  pngDecode : List Nat → Except Err GoImage
  bmpDecode : List Nat → Except Err GoImage
  pngDecodeConfig : List Nat → Except Err Cfg
  bmpDecodeConfig : List Nat → Except Err Cfg
  drawMask : GoImage → (Nat → Nat → Nat) → GoImage

/-- A pointwise update of an alpha grid, as image.Alpha SetAlpha performs. -/
def setAlphaFun (a : Nat → Nat → Nat) (x y v : Nat) : Nat → Nat → Nat :=
  fun c r => if c = x ∧ r = y then v else a c r

/-- The AND-mask bit for pixel column col of stored row row: bit
7 - col mod 8 of mask byte row*rowSize + col/8 (MSB first). -/
def maskBit (maskData : List Nat) (rowSize row col : Nat) : Nat :=
  (maskData.getD (row * rowSize + col / 8) 0 >>> (7 - col % 8)) &&& 1

/-- The AND-mask loop of decode: over every stored row (bottom-up) and
column, set alpha 255 at output row h-row-1 when the mask bit is not 1;
the alpha image starts all zero. -/
def maskLoop (maskData : List Nat) (w h rowSize : Nat) : Nat → Nat → Nat :=
  (List.range h).foldl
    (fun a row =>
      (List.range w).foldl
        (fun a col =>
          if maskBit maskData rowSize row col ≠ 1 then
            setAlphaFun a col (h - row - 1) 255
          else a)
        a)
    (fun _ _ => 0)

/-- The AND-mask branch of decode: stride (w+31)/32*4, length check against
rowSize*h, then the mask loop. -/
def decodeMask (maskData : List Nat) (w h : Nat) : Except Err (Nat → Nat → Nat) :=
  let rowSize := (w + 31) / 32 * 4
  if rowSize * h > maskData.length then .error .corruptMaskData
  else .ok (maskLoop maskData w h rowSize)

/-- The 32-bit alpha branch of decode: alpha of pixel (col,row) is byte
offset + row*rowSize + col*4 + 3 of the forged bitmap, written to output row
h-row-1. -/
def alphaLoop (bmpData : List Nat) (offset rowSize w h : Nat) : Nat → Nat → Nat :=
  (List.range h).foldl
    (fun a row =>
      (List.range w).foldl
        (fun a col =>
          setAlphaFun a col (h - row - 1)
            (bmpData.getD (offset + row * rowSize + col * 4 + 3) 0))
        a)
    (fun _ _ => 0)

/-- The per-entry body of the decode loop: slice the payload, dispatch on
the PNG magic, else forge a BMP head, decode the bitmap, and composite the
AND mask or the embedded 32-bit alpha. -/
def processEntry (C : Codecs) (file : List Nat) (e : Direntry) : Except Err GoImage := do
  let entryData ← entryBytes file e
  if pngHeader.isPrefixOf entryData then
    C.pngDecode entryData
  else
    let data := List.replicate 14 0 ++ entryData
    let f ← forgeBMPHead data e
    let bmpImg ← C.bmpDecode (f.buf.take f.bmpSize)
    let w := bmpImg.dx
    let h := bmpImg.dy
    if w ≤ 0 ∨ h ≤ 0 then .ok bmpImg
    else
      match f.mask with
      | some maskData => do
        let alpha ← decodeMask maskData w.toNat h.toNat
        .ok (C.drawMask bmpImg alpha)
      | none =>
        let bmpData := f.buf.take f.bmpSize
        if bmpData.length < 14 then .error .corruptBmpData
        else
          let rowSize := (w.toNat * 32 + 31) / 32 * 4
          let offset := u32le bmpData 10
          if offset + rowSize * h.toNat > bmpData.length then .error .corruptBmpAlpha
          else .ok (C.drawMask bmpImg (alphaLoop bmpData offset rowSize w.toNat h.toNat))

/-- The decode loop over the directory entries, in order; the first failing
entry aborts the whole call. -/
def decodeImages (C : Codecs) (file : List Nat) : List Direntry → Except Err (List GoImage)
  | [] => .ok []
  | e :: es => do
    let img ← processEntry C file e
    let rest ← decodeImages C file es
    .ok (img :: rest)

/-- decoder.decode: bounded ingestion, header, directory, then every entry. -/
def decoderDecode (C : Codecs) (src : List Nat) : Except Err (List GoImage) := do
  let file ← readAllICO src
  let hd ← decodeHeader file
  let entries ← decodeEntries file hd.number
  decodeImages C file entries

/-- Decode: the first image, with the empty-result check of the source. -/
def Decode (C : Codecs) (src : List Nat) : Except Err GoImage := do
  let images ← decoderDecode C src
  match images with
  | [] => .error .noImages
  | img :: _ => .ok img

/-- DecodeAll: every image, in directory order. -/
def DecodeAll (C : Codecs) (src : List Nat) : Except Err (List GoImage) :=
  decoderDecode C src

/-- DecodeConfig: header and directory parsing, then only the first entry,
delegating to the config form of the matching codec. -/
def DecodeConfig (C : Codecs) (src : List Nat) : Except Err Cfg := do
  let file ← readAllICO src
  let hd ← decodeHeader file
  let entries ← decodeEntries file hd.number
  match entries with
  | [] => .error .noImages
  | e :: _ => do
    let entryData ← entryBytes file e
    if pngHeader.isPrefixOf entryData then C.pngDecodeConfig entryData
    else
      let buf := List.replicate 14 0 ++ entryData
      let f ← forgeBMPHead buf e
      C.bmpDecodeConfig (f.buf.take f.bmpSize)

/-- Encode (writer.go): return ErrImageTooLarge at once when either bound
exceeds 256 pixels, before any PNG encoding or output writing; otherwise
PNG-encode the image, then write the 6-byte head (0, 1, 1), one 16-byte
directory entry with plane 1, bits 32, offset 22, width and height truncated
to 8 bits, size the PNG byte length as uint32, then the PNG bytes. -/
def Encode (pngEncode : GoImage → Except Err (List Nat)) (im : GoImage) :
    Except Err (List Nat) :=
  if 256 < im.dx ∨ 256 < im.dy then .error .imageTooLarge
  else do
    let png ← pngEncode im
    let entry : List Nat :=
      [(im.dx % 256).toNat, (im.dy % 256).toNat, 0, 0, 1, 0, 32, 0] ++
        u32bytes png.length ++ [22, 0, 0, 0]
    .ok ([0, 0, 1, 0, 1, 0] ++ entry ++ png)

/-! ## Helper lemmas -/

theorem bindOk {α β : Type} (x : α) (f : α → Except Err β) : (Except.ok x >>= f) = f x := rfl

theorem bindErr {α β : Type} (e : Err) (f : α → Except Err β) :
    ((Except.error e : Except Err α) >>= f) = .error e := rfl

theorem getD_set_self (l : List Nat) (i v : Nat) (h : i < l.length) :
    (l.set i v).getD i 0 = v := by
  simp [List.getD, List.getElem?_set_self, h]

theorem getD_set_ne (l : List Nat) (i j v : Nat) (h : i ≠ j) :
    (l.set i v).getD j 0 = l.getD j 0 := by
  simp [List.getD, List.getElem?_set_ne h]

theorem getD_append_left (l1 l2 : List Nat) (i : Nat) (h : i < l1.length) :
    (l1 ++ l2).getD i 0 = l1.getD i 0 := by
  simp [List.getD, List.getElem?_append_left h]

theorem u32le_putU32le (l : List Nat) (i v : Nat) (h : i + 4 ≤ l.length) :
    u32le (putU32le l i v) i = v % 4294967296 := by
  unfold u32le putU32le
  rw [getD_set_ne _ _ _ _ (by omega), getD_set_ne _ _ _ _ (by omega),
      getD_set_ne _ _ _ _ (by omega), getD_set_self _ _ _ (by omega)]
  rw [getD_set_ne _ _ _ _ (by omega), getD_set_ne _ _ _ _ (by omega),
      getD_set_self _ _ _ (by simp only [List.length_set]; omega)]
  rw [getD_set_ne _ _ _ _ (by omega),
      getD_set_self _ _ _ (by simp only [List.length_set]; omega)]
  rw [getD_set_self _ _ _ (by simp only [List.length_set]; omega)]
  omega

/-! ## Concrete inputs used by witnesses, counterexamples and evaluations -/

/-- A constant pixel lookup for concrete test images. -/
def junkPix : Int → Int → Nat × Nat × Nat × Nat := fun _ _ => (0, 0, 0, 0)

/-- A 257x256 image (bounds (0,0)-(257,256)). -/
def img257 : GoImage := ⟨0, 0, 257, 256, junkPix⟩

/-- A 512x512 image. -/
def img512 : GoImage := ⟨0, 0, 512, 512, junkPix⟩

/-- A 256x256 image. -/
def img256 : GoImage := ⟨0, 0, 256, 256, junkPix⟩

/-- A 1x1 image. -/
def unitImg : GoImage := ⟨0, 0, 1, 1, junkPix⟩

/-- A PNG encoder stub that always fails: an Encode run that returns the
size error against it proves the size check precedes PNG encoding. -/
def failEncode : GoImage → Except Err (List Nat) := fun _ => .error .pngError

/-- A PNG encoder stub that always returns the 8 magic bytes. -/
def pngStub : GoImage → Except Err (List Nat) := fun _ => .ok pngHeader

/-- Codecs whose delegates all fail; enough for paths that never reach them. -/
def junkCodecs : Codecs :=
  ⟨fun _ => .error .pngError, fun _ => .error .bmpError,
   fun _ => .error .pngError, fun _ => .error .bmpError, fun g _ => g⟩

/-- Codecs whose PNG decoder returns the 1x1 image. -/
def constCodecs : Codecs :=
  ⟨fun _ => .ok unitImg, fun _ => .error .bmpError,
   fun _ => .error .pngError, fun _ => .error .bmpError, fun g _ => g⟩

/-- A 6-byte file whose reserved field is 1 (corrupt header). -/
def badHeadSrc : List Nat := [1, 0, 1, 0, 1, 0]

/-- A directory entry with every field zero. -/
def entryZero : Direntry := ⟨0, 0, 0, 0, 0, 0, 0⟩

/-- A directory entry whose declared height is 4. -/
def dirH4 : Direntry := ⟨0, 4, 0, 0, 0, 0, 0⟩

/-- A directory entry whose declared height is 1. -/
def dirH1 : Direntry := ⟨0, 1, 0, 0, 0, 0, 0⟩

/-- A 12-byte all-zero DIB buffer. -/
def hdata12 : List Nat := List.replicate 12 0

/-- 14 zero bytes: the forged-header prefix. -/
def zeros14 : List Nat := List.replicate 14 0

/-- An 18-byte all-zero forge buffer (declared DIB size 0). -/
def zeros18 : List Nat := List.replicate 18 0

/-- A forge buffer declaring DIB size 100 with only 20 payload bytes. -/
def overDibBuf : List Nat := List.replicate 14 0 ++ ([100, 0, 0, 0] ++ List.replicate 16 0)

/-- A forge buffer with a 64-byte (OS/2) DIB header: width 1, height 1,
1 bit per pixel, explicit color count 2, 100 payload bytes. -/
def dib64Buf : List Nat :=
  List.replicate 14 0 ++
    ([64, 0, 0, 0] ++ [1, 0, 0, 0] ++ [1, 0, 0, 0] ++ [1, 0] ++ [1, 0] ++
      List.replicate 16 0 ++ [2, 0, 0, 0] ++ List.replicate 64 0)

/-! ## Claim theorems -/

/-- C1: Encode fails with the image-too-large error whenever either bound
exceeds 256 - for every PNG encoder, including one that always fails, so
the rejection happens before any PNG encoding or output writing - and
succeeds whenever both bounds are within 256 and the PNG encoder succeeds.
In particular it rejects 257x256 and 512x512 even under the failing encoder,
and succeeds at exactly 256x256. -/
theorem encode_size_check (pngEncode : GoImage → Except Err (List Nat)) (im : GoImage) :
    (256 < im.dx ∨ 256 < im.dy → Encode pngEncode im = .error .imageTooLarge)
    ∧ (im.dx ≤ 256 → im.dy ≤ 256 → ∀ png, pngEncode im = .ok png →
        ∃ out, Encode pngEncode im = .ok out)
    ∧ Encode failEncode img257 = .error .imageTooLarge
    ∧ Encode failEncode img512 = .error .imageTooLarge
    ∧ (∃ out, Encode pngStub img256 = .ok out) := by
  refine ⟨?_, ?_, rfl, rfl, ⟨_, rfl⟩⟩
  · intro hbig
    unfold Encode
    rw [if_pos hbig]
  · intro hw hh png hpng
    unfold Encode
    rw [if_neg (by push_neg; exact ⟨hw, hh⟩)]
    rw [hpng, bindOk]
    exact ⟨_, rfl⟩

/-- C5: ingestion takes at most maxICOSize+1 bytes of the source, fails with
the distinct too-large error exactly when the source exceeds maxICOSize,
returns a source of at most maxICOSize unchanged, and Decode, DecodeAll and
DecodeConfig all perform this bounded read first (an ingestion error is
their error). -/
theorem readAllICO_bounded (C : Codecs) (src : List Nat) :
    (src.take (maxICOSize + 1)).length ≤ maxICOSize + 1
    ∧ (readAllICO src = .error .tooLarge ↔ maxICOSize < src.length)
    ∧ (src.length ≤ maxICOSize → readAllICO src = .ok src)
    ∧ (∀ err, readAllICO src = .error err →
        Decode C src = .error err ∧ DecodeAll C src = .error err
        ∧ DecodeConfig C src = .error err) := by
  refine ⟨?_, ?_, ?_, ?_⟩
  · simp [List.length_take]
  · unfold readAllICO
    simp only [List.length_take]
    split
    · rename_i h
      simp only [true_iff]
      omega
    · rename_i h
      constructor
      · intro hc
        exact absurd hc (by simp)
      · intro hlen
        omega
  · intro hle
    unfold readAllICO
    rw [List.take_of_length_le (by omega)]
    rw [if_neg (by omega)]
  · intro err herr
    refine ⟨?_, ?_, ?_⟩
    · unfold Decode decoderDecode
      rw [herr]
      rfl
    · unfold DecodeAll decoderDecode
      rw [herr]
      rfl
    · unfold DecodeConfig
      rw [herr]
      rfl

/-- C4: entryBytes fails with the corrupted-entry error exactly when the
declared size is zero (the only non-positive uint32 value), with the
end-of-input error exactly when the size is nonzero and the int64 slice
bounds are violated (start negative, end before start, or end past the
buffer; the first two are impossible for uint32-derived values, leaving end
past the buffer), returns file[offset : offset+size] otherwise, and
processEntry performs this validation before reading any payload (an
entryBytes error is its error). -/
theorem entryBytes_spec (C : Codecs) (file : List Nat) (e : Direntry) :
    (entryBytes file e = .error (.corruptEntry e.size) ↔ e.size = 0)
    ∧ (entryBytes file e = .error .unexpectedEnd ↔
        (e.size ≠ 0 ∧ (((e.offset : Int) < 0)
          ∨ ((e.offset : Int) + (e.size : Int) < (e.offset : Int))
          ∨ ((file.length : Int) < (e.offset : Int) + (e.size : Int)))))
    ∧ (e.size ≠ 0 ∧ e.offset + e.size ≤ file.length →
        entryBytes file e = .ok ((file.drop e.offset).take e.size))
    ∧ (∀ err, entryBytes file e = .error err → processEntry C file e = .error err) := by
  refine ⟨?_, ?_, ?_, ?_⟩
  · unfold entryBytes
    dsimp only
    split
    · rename_i h
      constructor
      · intro _
        omega
      · intro _
        rfl
    · rename_i h
      split
      · constructor
        · intro hc
          exact absurd hc (by simp)
        · intro h0
          exact absurd h0 (by omega)
      · constructor
        · intro hc
          exact absurd hc (by simp)
        · intro h0
          exact absurd h0 (by omega)
  · unfold entryBytes
    dsimp only
    split
    · rename_i h
      constructor
      · intro hc
        exact absurd hc (by simp)
      · intro hc
        omega
    · rename_i h
      split
      · rename_i h2
        constructor
        · intro _
          exact ⟨by omega, by omega⟩
        · intro _
          rfl
      · rename_i h2
        push_neg at h2
        constructor
        · intro hc
          exact absurd hc (by simp)
        · intro hc
          rcases hc with ⟨hs, hd⟩
          rcases hd with hd | hd | hd <;> omega
  · intro hc
    unfold entryBytes
    dsimp only
    rw [if_neg (by omega)]
    rw [if_neg (by push_neg; omega)]
  · intro err herr
    unfold processEntry
    rw [herr]
    rfl

/-- C3: on any ingestible input of at least 6 bytes, a header with nonzero
reserved field or type other than 1 makes Decode, DecodeAll and DecodeConfig
all fail with the corrupted-header error; a valid header declaring 0 entries
makes all three fail with the no-images error; a header passing both checks
is accepted by decodeHeader. -/
theorem header_validation (C : Codecs) (src : List Nat)
    (hcap : src.length ≤ maxICOSize) (h6 : 6 ≤ src.length) :
    (¬(u16le src 0 = 0 ∧ u16le src 2 = 1) →
       Decode C src = .error (.corruptHeader (u16le src 0) (u16le src 2))
       ∧ DecodeAll C src = .error (.corruptHeader (u16le src 0) (u16le src 2))
       ∧ DecodeConfig C src = .error (.corruptHeader (u16le src 0) (u16le src 2)))
    ∧ (u16le src 0 = 0 ∧ u16le src 2 = 1 ∧ u16le src 4 = 0 →
       Decode C src = .error .noImages ∧ DecodeAll C src = .error .noImages
       ∧ DecodeConfig C src = .error .noImages)
    ∧ (u16le src 0 = 0 ∧ u16le src 2 = 1 ∧ u16le src 4 ≠ 0 →
       decodeHeader src = .ok ⟨u16le src 0, u16le src 2, u16le src 4⟩) := by
  have hfile : readAllICO src = .ok src := by
    unfold readAllICO
    rw [List.take_of_length_le (by omega)]
    rw [if_neg (by omega)]
  refine ⟨?_, ?_, ?_⟩
  · intro hbad
    have hh : decodeHeader src = .error (.corruptHeader (u16le src 0) (u16le src 2)) := by
      unfold decodeHeader
      rw [if_neg (by omega)]
      rw [if_pos (by tauto)]
    have hAll : decoderDecode C src = .error (.corruptHeader (u16le src 0) (u16le src 2)) := by
      unfold decoderDecode
      rw [hfile, bindOk, hh, bindErr]
    refine ⟨?_, ?_, ?_⟩
    · unfold Decode
      rw [hAll, bindErr]
    · unfold DecodeAll
      exact hAll
    · unfold DecodeConfig
      rw [hfile, bindOk, hh, bindErr]
  · intro ⟨hz, ht, hn⟩
    have hh : decodeHeader src = .error .noImages := by
      unfold decodeHeader
      rw [if_neg (by omega)]
      rw [if_neg (by push_neg; exact ⟨hz, ht⟩)]
      rw [if_pos hn]
    have hAll : decoderDecode C src = .error .noImages := by
      unfold decoderDecode
      rw [hfile, bindOk, hh, bindErr]
    refine ⟨?_, ?_, ?_⟩
    · unfold Decode
      rw [hAll, bindErr]
    · unfold DecodeAll
      exact hAll
    · unfold DecodeConfig
      rw [hfile, bindOk, hh, bindErr]
  · intro ⟨hz, ht, hn⟩
    unfold decodeHeader
    rw [if_neg (by omega)]
    rw [if_neg (by push_neg; exact ⟨hz, ht⟩)]
    rw [if_neg hn]

/-- C3 witness: the header checks evaluated on the concrete 6-byte input
with reserved field 1. -/
theorem header_validation_witness :
    (¬(u16le badHeadSrc 0 = 0 ∧ u16le badHeadSrc 2 = 1) →
       Decode junkCodecs badHeadSrc =
         .error (.corruptHeader (u16le badHeadSrc 0) (u16le badHeadSrc 2))
       ∧ DecodeAll junkCodecs badHeadSrc =
         .error (.corruptHeader (u16le badHeadSrc 0) (u16le badHeadSrc 2))
       ∧ DecodeConfig junkCodecs badHeadSrc =
         .error (.corruptHeader (u16le badHeadSrc 0) (u16le badHeadSrc 2)))
    ∧ (u16le badHeadSrc 0 = 0 ∧ u16le badHeadSrc 2 = 1 ∧ u16le badHeadSrc 4 = 0 →
       Decode junkCodecs badHeadSrc = .error .noImages
       ∧ DecodeAll junkCodecs badHeadSrc = .error .noImages
       ∧ DecodeConfig junkCodecs badHeadSrc = .error .noImages)
    ∧ (u16le badHeadSrc 0 = 0 ∧ u16le badHeadSrc 2 = 1 ∧ u16le badHeadSrc 4 ≠ 0 →
       decodeHeader badHeadSrc =
         .ok ⟨u16le badHeadSrc 0, u16le badHeadSrc 2, u16le badHeadSrc 4⟩) :=
  header_validation junkCodecs badHeadSrc (by decide) (by decide)

/-- C6: in BMP header forging, with the directory height read as 256 when the
stored byte is 0, the parsed height h is halved and the height field
rewritten in place (the 16-bit field at byte 6 of the DIB for the 12-byte
form, the 32-bit field at byte 8 otherwise) exactly when h is even and (h/2
equals the directory height, or h/2 equals the parsed width, or h exceeds
the width); in every other case height and bytes are unchanged. The
hypothesis h < 65536 for the 12-byte form holds at the call site, where h is
read from a 16-bit field; forgeRest invokes halveHeight with exactly these
arguments. -/
theorem height_halving (data : List Nat) (dibSize w h : Nat) (e : Direntry)
    (hdib : dibSize = 12 → h < 65536) :
    (h % 2 = 0 ∧ (h / 2 = (if e.height = 0 then 256 else e.height) ∨ h / 2 = w ∨ h > w) →
       halveHeight data dibSize w h (if e.height = 0 then 256 else e.height) =
         .ok (h / 2, if dibSize = 12 then putU16le data 6 (h / 2) else putU32le data 8 (h / 2)))
    ∧ (¬(h % 2 = 0 ∧ (h / 2 = (if e.height = 0 then 256 else e.height) ∨ h / 2 = w ∨ h > w)) →
       halveHeight data dibSize w h (if e.height = 0 then 256 else e.height) = .ok (h, data)) := by
  constructor
  · intro hcond
    unfold halveHeight
    rw [if_pos hcond]
    by_cases h12 : dibSize = 12
    · rw [if_pos h12]
      rw [if_neg (by have := hdib h12; omega)]
      rw [if_pos h12]
    · rw [if_neg h12, if_neg h12]
  · intro hcond
    unfold halveHeight
    rw [if_neg hcond]

/-- C6 witness: the heuristic evaluated at a 40-byte header form with
w = 4, h = 8 and directory height 4. -/
theorem height_halving_witness :
    (8 % 2 = 0 ∧ (8 / 2 = (if dirH4.height = 0 then 256 else dirH4.height) ∨ 8 / 2 = 4 ∨ 8 > 4) →
       halveHeight hdata12 40 4 8 (if dirH4.height = 0 then 256 else dirH4.height) =
         .ok (8 / 2, if 40 = 12 then putU16le hdata12 6 (8 / 2) else putU32le hdata12 8 (8 / 2)))
    ∧ (¬(8 % 2 = 0 ∧
          (8 / 2 = (if dirH4.height = 0 then 256 else dirH4.height) ∨ 8 / 2 = 4 ∨ 8 > 4)) →
       halveHeight hdata12 40 4 8 (if dirH4.height = 0 then 256 else dirH4.height) =
         .ok (8, hdata12)) :=
  height_halving hdata12 40 4 8 dirH4 (by decide)

/-- C9 (amended): the declared DIB size is rejected with the
corrupted-DIB-header error when below 12, with the end-of-input error (not
CorruptDibHeader) when it exceeds the payload, and a size of at least 12
that fits proceeds past this validation into the rest of the forging. -/
theorem dib_size_validation (buf : List Nat) (e : Direntry) (hbuf : 18 ≤ buf.length) :
    (u32le (buf.drop 14) 0 < 12 →
       forgeBMPHead buf e = .error (.corruptDibHeader (u32le (buf.drop 14) 0)))
    ∧ (12 ≤ u32le (buf.drop 14) 0 ∧ (buf.drop 14).length < u32le (buf.drop 14) 0 →
       forgeBMPHead buf e = .error .unexpectedEnd)
    ∧ (12 ≤ u32le (buf.drop 14) 0 ∧ u32le (buf.drop 14) 0 ≤ (buf.drop 14).length →
       forgeBMPHead buf e = forgeRest buf (buf.drop 14) e (u32le (buf.drop 14) 0)) := by
  have hlen : (buf.drop 14).length = buf.length - 14 := List.length_drop 14 buf
  refine ⟨?_, ?_, ?_⟩
  · intro hc
    unfold forgeBMPHead
    rw [if_neg (by omega)]
    dsimp only
    rw [if_neg (by omega)]
    rw [if_pos hc]
  · intro ⟨h1, h2⟩
    unfold forgeBMPHead
    rw [if_neg (by omega)]
    dsimp only
    rw [if_neg (by omega)]
    rw [if_neg (by omega)]
    rw [if_pos h2]
  · intro ⟨h1, h2⟩
    unfold forgeBMPHead
    rw [if_neg (by omega)]
    dsimp only
    rw [if_neg (by omega)]
    rw [if_neg (by omega)]
    rw [if_neg (by omega)]

/-- C9 witness: the validation evaluated on an 18-byte all-zero buffer
(declared DIB size 0, below the minimum). -/
theorem dib_size_validation_witness :
    (u32le (zeros18.drop 14) 0 < 12 →
       forgeBMPHead zeros18 entryZero = .error (.corruptDibHeader (u32le (zeros18.drop 14) 0)))
    ∧ (12 ≤ u32le (zeros18.drop 14) 0 ∧ (zeros18.drop 14).length < u32le (zeros18.drop 14) 0 →
       forgeBMPHead zeros18 entryZero = .error .unexpectedEnd)
    ∧ (12 ≤ u32le (zeros18.drop 14) 0 ∧ u32le (zeros18.drop 14) 0 ≤ (zeros18.drop 14).length →
       forgeBMPHead zeros18 entryZero =
         forgeRest zeros18 (zeros18.drop 14) entryZero (u32le (zeros18.drop 14) 0)) :=
  dib_size_validation zeros18 entryZero (by decide)

/-- C9 counterexample: a buffer declaring DIB size 100 over a 20-byte
payload is rejected with the end-of-input error, not with the
corrupted-DIB-header error the claim names for this case. -/
theorem dib_oversize_counterexample :
    forgeBMPHead overDibBuf entryZero = .error .unexpectedEnd
    ∧ Err.unexpectedEnd ≠ Err.corruptDibHeader (u32le (overDibBuf.drop 14) 0) :=
  ⟨rfl, by decide⟩

/-- Claim-side color-table byte size, as amended: entry count 2^bits for bit
depths 1, 2, 4 and 8, replaced by the explicit header field when that field
is nonzero and smaller than 2^bits, and 0 for all other depths; entries of
3 bytes for the 12-byte and the 64-byte header forms, 4 bytes otherwise. -/
def colorTableBytesSpec (dibSize bits numColors : Nat) : Nat :=
  (if bits = 1 ∨ bits = 2 ∨ bits = 4 ∨ bits = 8 then
     (if numColors ≠ 0 ∧ numColors < 2 ^ bits then numColors else 2 ^ bits)
   else 0) *
  (if dibSize = 12 ∨ dibSize = 64 then 3 else 4)

/-- Claim-side pixel-data offset: 14 + dibSize + color-table bytes, plus the
extra length field read at data[dibSize-8 .. dibSize-4] when dibSize exceeds
40, in uint32 arithmetic. -/
def forgeOffsetSpec (data : List Nat) (dibSize bits numColors : Nat) : Nat :=
  (14 + dibSize + colorTableBytesSpec dibSize bits numColors +
    (if 40 < dibSize ∧ 8 ≤ dibSize ∧ dibSize - 4 ≤ data.length then
       u32le data (dibSize - 8)
     else 0)) % 4294967296

/-- C7 (amended): the tail of BMP header forging fails with the
corrupted-offset error exactly when the claim-side offset (with 3-byte color
table entries for the 12-byte and the 64-byte forms, uint32 arithmetic)
reaches or exceeds the forged file size mod 2^32; otherwise it succeeds,
reports bmpSize = 14 + imageSize, and writes exactly that offset at bytes
10..13 of the forged buffer. -/
theorem forge_offset_spec (buf14 data : List Nat) (dibSize bits numColors imageSize : Nat)
    (mask : Option (List Nat)) (hb : buf14.length = 14) :
    ((14 + imageSize) % 4294967296 ≤ forgeOffsetSpec data dibSize bits numColors →
       finishForge buf14 data dibSize bits numColors imageSize mask = .error .corruptBmpOffset)
    ∧ (forgeOffsetSpec data dibSize bits numColors < (14 + imageSize) % 4294967296 →
       ∃ out, finishForge buf14 data dibSize bits numColors imageSize mask = .ok out
         ∧ out.mask = mask ∧ out.bmpSize = 14 + imageSize
         ∧ u32le out.buf 10 = forgeOffsetSpec data dibSize bits numColors) := by
  have hoff : (if 40 < dibSize ∧ 8 ≤ dibSize ∧ dibSize - 4 ≤ data.length then
        ((14 + dibSize + (if dibSize = 12 ∨ dibSize = 64 then
          (if bits = 1 ∨ bits = 2 ∨ bits = 4 ∨ bits = 8 then
            (if numColors = 0 ∨ numColors > 2 ^ bits then 2 ^ bits else numColors) else 0) * 3
          else (if bits = 1 ∨ bits = 2 ∨ bits = 4 ∨ bits = 8 then
            (if numColors = 0 ∨ numColors > 2 ^ bits then 2 ^ bits else numColors) else 0) * 4))
          % 4294967296 + u32le data (dibSize - 8)) % 4294967296
        else (14 + dibSize + (if dibSize = 12 ∨ dibSize = 64 then
          (if bits = 1 ∨ bits = 2 ∨ bits = 4 ∨ bits = 8 then
            (if numColors = 0 ∨ numColors > 2 ^ bits then 2 ^ bits else numColors) else 0) * 3
          else (if bits = 1 ∨ bits = 2 ∨ bits = 4 ∨ bits = 8 then
            (if numColors = 0 ∨ numColors > 2 ^ bits then 2 ^ bits else numColors) else 0) * 4))
          % 4294967296) = forgeOffsetSpec data dibSize bits numColors := by
    unfold forgeOffsetSpec colorTableBytesSpec
    split_ifs <;> omega
  have hlen : 10 + 4 ≤ (putU32le (((buf14 ++ data).set 0 66).set 1 77) 2 (14 + imageSize)).length := by
    simp only [putU32le, List.length_set, List.length_append, hb]
    omega
  constructor
  · intro hge
    unfold finishForge
    dsimp only
    rw [hoff]
    rw [if_pos hge]
  · intro hlt
    unfold finishForge
    dsimp only
    rw [hoff]
    rw [if_neg (by omega)]
    refine ⟨_, rfl, rfl, rfl, ?_⟩
    rw [u32le_putU32le _ _ _ hlen]
    unfold forgeOffsetSpec
    apply Nat.mod_eq_of_lt
    unfold forgeOffsetSpec at hlt
    omega

/-- C7 witness: the forge tail evaluated at the empty payload, where the
claim-side offset 14 is at least the forged size 14, so forging fails with
the corrupted-offset error. -/
theorem forge_offset_spec_witness :
    ((14 + 0) % 4294967296 ≤ forgeOffsetSpec [] 0 0 0 →
       finishForge zeros14 [] 0 0 0 0 none = .error .corruptBmpOffset)
    ∧ (forgeOffsetSpec [] 0 0 0 < (14 + 0) % 4294967296 →
       ∃ out, finishForge zeros14 [] 0 0 0 0 none = .ok out
         ∧ out.mask = none ∧ out.bmpSize = 14 + 0
         ∧ u32le out.buf 10 = forgeOffsetSpec [] 0 0 0) :=
  forge_offset_spec zeros14 [] 0 0 0 0 none (by decide)

/-- C7 counterexample: on a 64-byte OS/2 header with 1-bit pixels and color
count 2 the code writes pixel-data offset 14 + 64 + 2*3 = 84 (3-byte table
entries for dibSize 64), while the claim, which reserves 3-byte entries for
the 12-byte form alone, predicts 14 + 64 + 2*4 = 86. -/
theorem colorTable64_counterexample :
    (forgeBMPHead dib64Buf dirH1).map (fun f => u32le f.buf 10) = .ok 84
    ∧ (84 : Nat) ≠ 14 + 64 + 2 * 4 :=
  ⟨rfl, by decide⟩

/-- Effect of one row of the AND-mask loop on the alpha grid. -/
theorem maskInner (md : List Nat) (h row rowSize : Nat) :
    ∀ (w : Nat) (a : Nat → Nat → Nat),
    (List.range w).foldl
      (fun a col =>
        if maskBit md rowSize row col ≠ 1 then setAlphaFun a col (h - row - 1) 255 else a) a
    = fun c r =>
        if c < w ∧ r = h - row - 1 ∧ maskBit md rowSize row c ≠ 1 then 255 else a c r := by
  intro w
  induction w with
  | zero =>
    intro a
    funext c r
    simp
  | succ n ih =>
    intro a
    rw [List.range_succ, List.foldl_append, ih]
    funext c r
    dsimp only [List.foldl]
    by_cases hbit : maskBit md rowSize row n ≠ 1
    · rw [if_pos hbit]
      unfold setAlphaFun
      dsimp only
      by_cases hcn : c = n
      · subst hcn
        by_cases hr : r = h - row - 1
        · rw [if_pos ⟨rfl, hr⟩]
          rw [if_pos ⟨by omega, hr, hbit⟩]
        · rw [if_neg (by tauto)]
          rw [if_neg (by tauto)]
          rw [if_neg (by tauto)]
      · rw [if_neg (by tauto)]
        by_cases hprev : c < n ∧ r = h - row - 1 ∧ maskBit md rowSize row c ≠ 1
        · rw [if_pos hprev]
          rw [if_pos ⟨by omega, hprev.2⟩]
        · rw [if_neg hprev]
          rw [if_neg (by rintro ⟨h1, h2, h3⟩; exact hprev ⟨by omega, h2, h3⟩)]
    · rw [if_neg hbit]
      push_neg at hbit
      by_cases hprev : c < n ∧ r = h - row - 1 ∧ maskBit md rowSize row c ≠ 1
      · rw [if_pos hprev]
        rw [if_pos ⟨by omega, hprev.2⟩]
      · rw [if_neg hprev]
        rw [if_neg ?hx]
        case hx =>
          rintro ⟨h1, h2, h3⟩
          have hcn : c = n ∨ c < n := by omega
          rcases hcn with hcn | hcn
          · subst hcn
            exact h3 hbit
          · exact hprev ⟨hcn, h2, h3⟩

/-- Effect of the first k rows of the AND-mask loop on the alpha grid. -/
theorem maskOuter (md : List Nat) (w h rowSize : Nat) :
    ∀ (k : Nat) (init : Nat → Nat → Nat),
    (List.range k).foldl
      (fun a row =>
        (List.range w).foldl
          (fun a col =>
            if maskBit md rowSize row col ≠ 1 then setAlphaFun a col (h - row - 1) 255 else a)
          a)
      init
    = fun c r =>
        if ∃ row, row < k ∧ c < w ∧ r = h - row - 1 ∧ maskBit md rowSize row c ≠ 1 then 255
        else init c r := by
  intro k
  induction k with
  | zero =>
    intro init
    funext c r
    simp
  | succ n ih =>
    intro init
    rw [List.range_succ, List.foldl_append, ih]
    dsimp only [List.foldl]
    rw [maskInner]
    funext c r
    dsimp only
    by_cases hlast : c < w ∧ r = h - n - 1 ∧ maskBit md rowSize n c ≠ 1
    · rw [if_pos hlast]
      rw [if_pos ⟨n, by omega, hlast⟩]
    · rw [if_neg hlast]
      by_cases hprev : ∃ row, row < n ∧ c < w ∧ r = h - row - 1 ∧ maskBit md rowSize row c ≠ 1
      · obtain ⟨row, hr1, hr2⟩ := hprev
        rw [if_pos ⟨row, hr1, hr2⟩]
        rw [if_pos ⟨row, by omega, hr2⟩]
      · rw [if_neg hprev]
        rw [if_neg ?hy]
        case hy =>
          rintro ⟨row, hr1, hr2⟩
          have hc : row = n ∨ row < n := by omega
          rcases hc with hc | hc
          · subst hc
            exact hlast hr2
          · exact hprev ⟨row, hc, hr2⟩

/-- C8: AND-mask decoding fails with the corrupted-mask-data error exactly
when the mask slice is shorter than the 4-byte-padded stride (w+31)/32*4
times h; otherwise, for every pixel (col, row), the alpha written at output
row h-row-1 is 255 exactly when bit 7 - col mod 8 of mask byte
row*stride + col/8 is 0 (MSB first, bottom-up rows inverted to top-down
output) and 0 otherwise. -/
theorem mask_decoding (maskData : List Nat) (w h : Nat) :
    (decodeMask maskData w h = .error .corruptMaskData ↔
       maskData.length < (w + 31) / 32 * 4 * h)
    ∧ ((w + 31) / 32 * 4 * h ≤ maskData.length →
       ∃ alpha, decodeMask maskData w h = .ok alpha ∧
         ∀ col row, col < w → row < h →
           (alpha col (h - row - 1) =
             (if maskBit maskData ((w + 31) / 32 * 4) row col = 0 then 255 else 0))
           ∧ (alpha col (h - row - 1) = 255 ↔
              maskBit maskData ((w + 31) / 32 * 4) row col = 0)) := by
  have hbit01 : ∀ row col, maskBit maskData ((w + 31) / 32 * 4) row col ≤ 1 := by
    intro row col
    unfold maskBit
    have hm := Nat.and_one_is_mod
      (maskData.getD (row * ((w + 31) / 32 * 4) + col / 8) 0 >>> (7 - col % 8))
    omega
  constructor
  · unfold decodeMask
    dsimp only
    split
    · rename_i hgt
      simp only [true_iff]
      omega
    · rename_i hgt
      constructor
      · intro hc
        exact absurd hc (by simp)
      · intro hc
        omega
  · intro hle
    unfold decodeMask
    dsimp only
    rw [if_neg (by omega)]
    refine ⟨_, rfl, ?_⟩
    intro col row hcol hrow
    unfold maskLoop
    rw [maskOuter]
    dsimp only
    by_cases hb : maskBit maskData ((w + 31) / 32 * 4) row col = 0
    · rw [if_pos ⟨row, hrow, hcol, rfl, by omega⟩]
      rw [if_pos hb]
      exact ⟨rfl, by simp [hb]⟩
    · rw [if_neg ?hz]
      case hz =>
        rintro ⟨row2, hr1, hr2, hr3, hr4⟩
        obtain rfl : row = row2 := by omega
        have hbb := hbit01 row col
        omega
      rw [if_neg hb]
      refine ⟨rfl, ?_⟩
      constructor
      · intro h0
        omega
      · intro h0
        exact absurd h0 hb

/-- The decode loop yields one image per directory entry, in order. -/
theorem decodeImages_ok (C : Codecs) (file : List Nat) :
    ∀ (es : List Direntry) (l : List GoImage),
    decodeImages C file es = .ok l →
    l.length = es.length ∧
    ∀ i (hi : i < es.length) (hl : i < l.length),
      processEntry C file (es.get ⟨i, hi⟩) = .ok (l.get ⟨i, hl⟩) := by
  intro es
  induction es with
  | nil =>
    intro l hok
    unfold decodeImages at hok
    injection hok with hok
    subst hok
    exact ⟨rfl, by intro i hi hl; exact absurd hi (by simp)⟩
  | cons e es ih =>
    intro l hok
    unfold decodeImages at hok
    cases hp : processEntry C file e with
    | error err =>
      rw [hp, bindErr] at hok
      exact Except.noConfusion hok
    | ok img =>
      rw [hp, bindOk] at hok
      cases hr : decodeImages C file es with
      | error err =>
        rw [hr, bindErr] at hok
        exact Except.noConfusion hok
      | ok rest =>
        rw [hr, bindOk] at hok
        injection hok with hok
        subst hok
        obtain ⟨hlen, hidx⟩ := ih rest hr
        refine ⟨by simp [hlen], ?_⟩
        intro i hi hl
        cases i with
        | zero => exact hp
        | succ n =>
          exact hidx n (by simpa using hi) (by simpa using hl)

/-- A failing entry anywhere makes the whole decode loop fail. -/
theorem decodeImages_error (C : Codecs) (file : List Nat) (es : List Direntry)
    (e : Direntry) (err : Err) (hmem : e ∈ es) (hp : processEntry C file e = .error err) :
    ∃ err2, decodeImages C file es = .error err2 := by
  cases hd : decodeImages C file es with
  | error err2 => exact ⟨err2, rfl⟩
  | ok l =>
    obtain ⟨hlen, hidx⟩ := decodeImages_ok C file es l hd
    obtain ⟨⟨i, hi⟩, rfl⟩ := List.mem_iff_get.mp hmem
    have := hidx i hi (by omega)
    rw [hp] at this
    exact Except.noConfusion this

/-- decodeEntries returns exactly head.Number entries. -/
theorem decodeEntries_length (file : List Nat) (n : Nat) (entries : List Direntry)
    (h : decodeEntries file n = .ok entries) : entries.length = n := by
  unfold decodeEntries at h
  split at h
  · exact Except.noConfusion h
  · injection h with h
    subst h
    simp

/-- An accepted header declares at least one entry. -/
theorem decodeHeader_pos (file : List Nat) (hd : Head) (h : decodeHeader file = .ok hd) :
    0 < hd.number := by
  unfold decodeHeader at h
  dsimp only at h
  split at h
  · exact Except.noConfusion h
  · split at h
    · exact Except.noConfusion h
    · split at h
      · exact Except.noConfusion h
      · rename_i hn
        injection h with h
        subst h
        dsimp only
        omega

/-- Inversion of a successful decode pipeline. -/
theorem decoderDecode_ok (C : Codecs) (src : List Nat) (l : List GoImage)
    (h : decoderDecode C src = .ok l) :
    ∃ file hd entries, readAllICO src = .ok file ∧ decodeHeader file = .ok hd
      ∧ decodeEntries file hd.number = .ok entries
      ∧ decodeImages C file entries = .ok l := by
  unfold decoderDecode at h
  cases hf : readAllICO src with
  | error e =>
    rw [hf, bindErr] at h
    exact Except.noConfusion h
  | ok file =>
    rw [hf, bindOk] at h
    cases hh : decodeHeader file with
    | error e =>
      rw [hh, bindErr] at h
      exact Except.noConfusion h
    | ok hd =>
      rw [hh, bindOk] at h
      cases he : decodeEntries file hd.number with
      | error e =>
        rw [he, bindErr] at h
        exact Except.noConfusion h
      | ok entries =>
        rw [he, bindOk] at h
        exact ⟨file, hd, entries, rfl, hh, he, h⟩

/-- A successful DecodeAll always returns at least one image. -/
theorem decodeAll_ok_nonempty (C : Codecs) (src : List Nat) (l : List GoImage)
    (h : DecodeAll C src = .ok l) : 0 < l.length := by
  obtain ⟨file, hd, entries, hf, hh, he, hi⟩ := decoderDecode_ok C src l h
  obtain ⟨hlen, _⟩ := decodeImages_ok C file entries l hi
  have h1 := decodeEntries_length file hd.number entries he
  have h2 := decodeHeader_pos file hd hh
  omega

/-- C10: Decode fails exactly when DecodeAll fails, with the same error; a
successful DecodeAll list is nonempty, has exactly one image per directory
entry in directory order, and Decode returns its first element; a malformed
entry anywhere makes both calls fail with no partial result. -/
theorem decode_orchestration (C : Codecs) (src : List Nat) :
    (∀ err, DecodeAll C src = .error err ↔ Decode C src = .error err)
    ∧ (∀ l, DecodeAll C src = .ok l →
        (∃ img rest, l = img :: rest ∧ Decode C src = .ok img)
        ∧ ∃ file hd entries,
            readAllICO src = .ok file ∧ decodeHeader file = .ok hd
            ∧ decodeEntries file hd.number = .ok entries
            ∧ l.length = entries.length ∧ entries.length = hd.number ∧ 0 < hd.number
            ∧ ∀ i (hi : i < entries.length) (hl : i < l.length),
                processEntry C file (entries.get ⟨i, hi⟩) = .ok (l.get ⟨i, hl⟩))
    ∧ (∀ file hd entries e err, readAllICO src = .ok file → decodeHeader file = .ok hd →
        decodeEntries file hd.number = .ok entries → e ∈ entries →
        processEntry C file e = .error err →
        ∃ err2, DecodeAll C src = .error err2 ∧ Decode C src = .error err2) := by
  refine ⟨?_, ?_, ?_⟩
  · intro err
    cases hall : DecodeAll C src with
    | error e2 =>
      unfold DecodeAll at hall
      constructor
      · intro heq
        injection heq with heq
        subst heq
        unfold Decode
        rw [hall, bindErr]
      · intro heq
        unfold Decode at heq
        rw [hall, bindErr] at heq
        injection heq with heq
        subst heq
        rfl
    | ok l =>
      have hne := decodeAll_ok_nonempty C src l hall
      unfold DecodeAll at hall
      constructor
      · intro heq
        exact Except.noConfusion heq
      · intro heq
        unfold Decode at heq
        rw [hall, bindOk] at heq
        cases l with
        | nil => simp at hne
        | cons img rest => exact Except.noConfusion heq
  · intro l hall
    have hne := decodeAll_ok_nonempty C src l hall
    unfold DecodeAll at hall
    obtain ⟨file, hd, entries, hf, hh, he, hi⟩ := decoderDecode_ok C src l hall
    obtain ⟨hlen, hidx⟩ := decodeImages_ok C file entries l hi
    have h1 := decodeEntries_length file hd.number entries he
    have h2 := decodeHeader_pos file hd hh
    constructor
    · cases l with
      | nil => simp at hne
      | cons img rest =>
        refine ⟨img, rest, rfl, ?_⟩
        unfold Decode
        rw [hall, bindOk]
    · exact ⟨file, hd, entries, hf, hh, he, by omega, by omega, h2, hidx⟩
  · intro file hd entries e err hf hh he hmem hp
    obtain ⟨err2, herr2⟩ := decodeImages_error C file entries e err hmem hp
    have hall : DecodeAll C src = .error err2 := by
      unfold DecodeAll decoderDecode
      rw [hf, bindOk, hh, bindOk, he, bindOk]
      exact herr2
    refine ⟨err2, hall, ?_⟩
    unfold DecodeAll at hall
    unfold Decode
    rw [hall, bindErr]

/-- C2: for any image within 256 in both dimensions (so Encode passes its
size check) and any PNG codec that is lossless on img (the spec asserts the
PNG path introduces no lossy step), whose encoding starts with the PNG
magic and fits the 64 MiB cap and a uint32 size field, Encode succeeds and
Decode returns img itself back - hence equal bounds and bit-for-bit equal
RGBA values. -/
theorem decode_encode_roundtrip (C : Codecs) (pngEncode : GoImage → Except Err (List Nat))
    (img : GoImage) (png : List Nat)
    (hwidth : img.dx ≤ 256) (hheight : img.dy ≤ 256)
    (henc : pngEncode img = .ok png)
    (hpfx : pngHeader.isPrefixOf png = true)
    (hcap : png.length + 22 ≤ maxICOSize)
    (hfit : png.length < 4294967296)
    (hdec : C.pngDecode png = .ok img) :
    ∃ out, Encode pngEncode img = .ok out ∧ Decode C out = .ok img := by
  have hpnglen : 8 ≤ png.length := by
    have := List.IsPrefix.length_le ( List.isPrefixOf_iff_prefix.mp hpfx)
    simpa [pngHeader] using this
  refine ⟨[0, 0, 1, 0, 1, 0, (img.dx % 256).toNat, (img.dy % 256).toNat, 0, 0, 1, 0, 32, 0,
      png.length % 256, png.length / 256 % 256, png.length / 65536 % 256,
      png.length / 16777216 % 256, 22, 0, 0, 0] ++ png, ?_, ?_⟩
  · unfold Encode
    rw [if_neg (by push_neg; exact ⟨hwidth, hheight⟩)]
    rw [henc, bindOk]
    rfl
  · set pre : List Nat := [0, 0, 1, 0, 1, 0, (img.dx % 256).toNat, (img.dy % 256).toNat,
      0, 0, 1, 0, 32, 0, png.length % 256, png.length / 256 % 256, png.length / 65536 % 256,
      png.length / 16777216 % 256, 22, 0, 0, 0] with hpre
    have hprelen : pre.length = 22 := by
      rw [hpre]
      rfl
    set out : List Nat := pre ++ png with hout
    have houtlen : out.length = 22 + png.length := by
      rw [hout, List.length_append, hprelen]
    have hfile : readAllICO out = .ok out := by
      unfold readAllICO
      rw [List.take_of_length_le (by unfold maxICOSize at hcap ⊢; omega)]
      rw [if_neg (by unfold maxICOSize at hcap ⊢; omega)]
    have hb0 : out.getD 0 0 = 0 := by
      rw [hout, getD_append_left _ _ _ (by rw [hprelen]; omega), hpre]
      rfl
    have hb1 : out.getD 1 0 = 0 := by
      rw [hout, getD_append_left _ _ _ (by rw [hprelen]; omega), hpre]
      rfl
    have hb2 : out.getD 2 0 = 1 := by
      rw [hout, getD_append_left _ _ _ (by rw [hprelen]; omega), hpre]
      rfl
    have hb3 : out.getD 3 0 = 0 := by
      rw [hout, getD_append_left _ _ _ (by rw [hprelen]; omega), hpre]
      rfl
    have hb4 : out.getD 4 0 = 1 := by
      rw [hout, getD_append_left _ _ _ (by rw [hprelen]; omega), hpre]
      rfl
    have hb5 : out.getD 5 0 = 0 := by
      rw [hout, getD_append_left _ _ _ (by rw [hprelen]; omega), hpre]
      rfl
    have hhdr : decodeHeader out = .ok ⟨0, 1, 1⟩ := by
      unfold decodeHeader
      rw [if_neg (by omega)]
      dsimp only
      unfold u16le
      rw [hb0, hb1, hb2, hb3, hb4, hb5]
      rw [if_neg (by omega)]
      rw [if_neg (by omega)]
    have hents : decodeEntries out 1 = .ok [parseEntry out 6] := by
      unfold decodeEntries
      rw [if_neg (by omega)]
      rfl
    have hsize : u32le out 14 = png.length := by
      unfold u32le
      rw [hout]
      rw [getD_append_left _ _ _ (by rw [hprelen]; omega),
          getD_append_left _ _ _ (by rw [hprelen]; omega),
          getD_append_left _ _ _ (by rw [hprelen]; omega),
          getD_append_left _ _ _ (by rw [hprelen]; omega)]
      rw [hpre]
      show png.length % 256 + 256 * (png.length / 256 % 256) +
        65536 * (png.length / 65536 % 256) + 16777216 * (png.length / 16777216 % 256) =
        png.length
      omega
    have hoffs : u32le out 18 = 22 := by
      unfold u32le
      rw [hout]
      rw [getD_append_left _ _ _ (by rw [hprelen]; omega),
          getD_append_left _ _ _ (by rw [hprelen]; omega),
          getD_append_left _ _ _ (by rw [hprelen]; omega),
          getD_append_left _ _ _ (by rw [hprelen]; omega)]
      rw [hpre]
      rfl
    have hdrop : out.drop 22 = png := by
      rw [hout, show (22 : Nat) = pre.length from hprelen.symm]
      exact List.drop_left pre png
    have hesize : (parseEntry out 6).size = png.length := by
      unfold parseEntry
      exact hsize
    have heoff : (parseEntry out 6).offset = 22 := by
      unfold parseEntry
      exact hoffs
    have hslice : entryBytes out (parseEntry out 6) = .ok png := by
      unfold entryBytes
      rw [hesize, heoff]
      dsimp only
      rw [if_neg (by push_neg; omega)]
      rw [if_neg (by push_neg; refine ⟨by omega, by omega, ?_⟩; rw [houtlen]; push_cast; omega)]
      rw [hdrop, List.take_length]
    have hproc : processEntry C out (parseEntry out 6) = .ok img := by
      unfold processEntry
      rw [hslice, bindOk]
      rw [if_pos hpfx]
      exact hdec
    have himgs : decodeImages C out [parseEntry out 6] = .ok [img] := by
      unfold decodeImages
      rw [hproc, bindOk]
      unfold decodeImages
      rfl
    have hdd : decoderDecode C out = .ok [img] := by
      unfold decoderDecode
      rw [hfile, bindOk, hhdr, bindOk]
      dsimp only
      rw [hents, bindOk]
      exact himgs
    unfold Decode
    rw [hdd, bindOk]

/-- C2 witness: the round trip evaluated at a 1x1 image with a constant
codec that is lossless at that image. -/
theorem decode_encode_roundtrip_witness :
    ∃ out, Encode pngStub unitImg = .ok out ∧ Decode constCodecs out = .ok unitImg :=
  decode_encode_roundtrip constCodecs pngStub unitImg pngHeader (by decide) (by decide) rfl
    (by decide) (by decide) (by decide) rfl

end Ico
